import Mathlib

/-!
Verification of the luar value-conversion and proxy engine (Go sources
`luar.go` and `proxy.go`) against its natural-language specification.

The Go code is reflective and generic; the shallow embedding below fixes a
finite universe of Go types (int, float64, string, bool, *int, interface,
slices, maps, structs) and translates each source function on that universe.
A Go `float64` value is carried as an exact rational (`ℚ`) and float
arithmetic on such values is exact; the lossy `int64`-to-`float64`
conversion performed when pushing integers to Lua is modelled faithfully
(`f64ofInt`: round to 53 significant bits, ties to even); `int64`/`uint64`
arithmetic wraps explicitly modulo `2 ^ 64` where the source can overflow.
-/

namespace Luar

/-! ## Operator emulation layer (source: `proxy.go`)

Models `unsizedKind`, `commonKind`, `valueToNumber`, `valueToComplex`,
`pushNumberValue`, `number__add` and `number__lt` from `proxy.go`.
`reflect.Type` is modelled by `PType`: a user-defined (named) scalar subtype
carries an identifier and its unsized kind; the predeclared types `float64`,
`string` and `complex128` get their own constructors.  String operands are
included, but the success path of `strconv.ParseFloat` on numeric strings is
not modelled (`valueToNumber` on a string fails, as it does in the source for
non-numeric strings); no claim depends on numeric-string coercion. -/

/-- Unsized numeric kinds, as returned by `unsizedKind` in `proxy.go`
(`reflect.Int64`, `reflect.Uint64`, `reflect.Float64`, `reflect.Complex128`,
`reflect.String`). -/
inductive NumKind where
  | kInt | kUint | kFloat | kComplex | kString
  deriving Repr, DecidableEq

/-- Model of `reflect.Type` for scalar operands: a named (user-defined)
subtype with an identity and an unsized kind, or one of the predeclared
types `float64`, `string`, `complex128`. -/
inductive PType where
  | named (id : ℕ) (k : NumKind)
  | floatT
  | stringT
  | complexT
  deriving Repr, DecidableEq

/-- A Go scalar value as stored in a number/string proxy.  `u` carries a
`uint64` as a natural number `< 2 ^ 64`; `i` an `int64`. -/
inductive NumVal where
  | i (z : ℤ)
  | u (n : ℕ)
  | f (q : ℚ)
  | c (re im : ℚ)
  | s (str : String)
  deriving Repr, DecidableEq

/-- An operand of an arithmetic/comparison metamethod: either a value proxy
(with its declared type) or a bare Lua scalar. -/
inductive LOperand where
  | proxy (t : PType) (v : NumVal)
  | num (q : ℚ)
  | str (s : String)
  deriving Repr, DecidableEq

/-- `valueOfProxyOrScalar` (`proxy.go`): a proxy yields its stored value and
declared type; a Lua number is read as a `float64`; a Lua string as `string`. -/
def valueOfProxyOrScalar : LOperand → NumVal × PType
  | .proxy t v => (v, t)
  | .num q => (.f q, .floatT)
  | .str s => (.s s, .stringT)

/-- `unsizedKind` (`proxy.go`), applied to the value's kind. -/
def unsizedKind : NumVal → NumKind
  | .i _ => .kInt
  | .u _ => .kUint
  | .f _ => .kFloat
  | .c _ _ => .kComplex
  | .s _ => .kString

/-- `commonKind` (`proxy.go`): identical integer kinds are kept; any complex
operand promotes to complex; everything else promotes to float. -/
def commonKind (v1 v2 : NumVal) : NumKind :=
  let k1 := unsizedKind v1
  let k2 := unsizedKind v2
  if k1 = k2 ∧ (k1 = .kUint ∨ k1 = .kInt) then k1
  else if k1 = .kComplex ∨ k2 = .kComplex then .kComplex
  else .kFloat

/-- `reflect.Value.Int`: only meaningful on signed-integer kinds (the source
calls it only under a `commonKind` guard that ensures this). -/
def toIntD : NumVal → ℤ
  | .i z => z
  | _ => 0

/-- `reflect.Value.Uint`: only meaningful on unsigned-integer kinds. -/
def toUintD : NumVal → ℕ
  | .u n => n
  | _ => 0

/-- `valueToNumber` (`proxy.go`): integers and floats read as `float64`
(idealized as `ℚ`); anything else raises a Lua error.  The `ParseFloat`
success path for numeric strings is not modelled. -/
def valueToNumber : NumVal → Except String ℚ
  | .i z => .ok (z : ℚ)
  | .u n => .ok (n : ℚ)
  | .f q => .ok q
  | _ => .error "cannot convert to number"

/-- `valueToComplex` (`proxy.go`). -/
def valueToComplex : NumVal → Except String (ℚ × ℚ)
  | .c re im => .ok (re, im)
  | v => do
    let q ← valueToNumber v
    .ok (q, 0)

/-- `isPredeclaredType` (`proxy.go`): true exactly for `float64` and
`string`. -/
def isPredeclaredType : PType → Bool
  | .floatT => true
  | .stringT => true
  | _ => false

/-- Two's-complement wrap of an integer into the `int64` range, used to model
Go's `int64` arithmetic and conversions. -/
def wrapI64 (z : ℤ) : ℤ :=
  (z + 2 ^ 63) % 2 ^ 64 - 2 ^ 63

/-- Kind of a modelled `reflect.Type`. -/
def kindOfPType : PType → NumKind
  | .named _ k => k
  | .floatT => .kFloat
  | .stringT => .kString
  | .complexT => .kComplex

/-- `reflect.Value.Convert` between numeric kinds, as used by
`pushNumberValue` (`v.Convert(t1)` etc.): float-to-integer conversion
truncates toward zero; integer conversions wrap. -/
def convertNum (v : NumVal) (k : NumKind) : NumVal :=
  match k with
  | .kInt =>
    match v with
    | .i z => .i (wrapI64 z)
    | .u n => .i (wrapI64 n)
    | .f q => .i (wrapI64 (q.num.tdiv q.den))
    | x => x
  | .kUint =>
    match v with
    | .i z => .u (z.toNat % 2 ^ 64)
    | .u n => .u (n % 2 ^ 64)
    | .f q => .u ((q.num.tdiv q.den).toNat % 2 ^ 64)
    | x => x
  | .kFloat =>
    match v with
    | .i z => .f (z : ℚ)
    | .u n => .f (n : ℚ)
    | .f q => .f q
    | x => x
  | .kComplex =>
    match v with
    | .i z => .c (z : ℚ) 0
    | .u n => .c (n : ℚ) 0
    | .f q => .c q 0
    | x => x
  | .kString => v

/-- Which metatable an arithmetic result proxy receives. -/
inductive MetaTag where
  | numberMT | complexMT
  deriving Repr, DecidableEq

/-- What an arithmetic metamethod leaves on the Lua stack: a value proxy
(with metatable and declared type) or a native Lua number. -/
inductive AOut where
  | proxyV (mt : MetaTag) (t : PType) (v : NumVal)
  | pushNum (q : ℚ)
  deriving Repr, DecidableEq

/-- `pushNumberValue` (`proxy.go`): if both operand types agree, or the other
operand is a predeclared `float64`/`string`, the result is re-wrapped as a
proxy of the named type; two different named types degrade to a native Lua
number (or a `complex128` proxy for complex results). -/
def pushNumberValue (res : NumVal) (t1 t2 : PType) : Except String AOut :=
  let isComplex := unsizedKind res = .kComplex
  let mt : MetaTag := if isComplex then .complexMT else .numberMT
  if t1 = t2 ∨ isPredeclaredType t2 then
    .ok (.proxyV mt t1 (convertNum res (kindOfPType t1)))
  else if isPredeclaredType t1 then
    .ok (.proxyV mt t2 (convertNum res (kindOfPType t2)))
  else if isComplex then
    .ok (.proxyV .complexMT .complexT (convertNum res .kComplex))
  else do
    let q ← valueToNumber res
    .ok (.pushNum q)

/-- `number__add` (`proxy.go`): compute the sum in the promoted common kind,
then push via `pushNumberValue`.  `uint64`/`int64` sums wrap. -/
def number__add (o1 o2 : LOperand) : Except String AOut := do
  let (v1, t1) := valueOfProxyOrScalar o1
  let (v2, t2) := valueOfProxyOrScalar o2
  let result : NumVal ←
    match commonKind v1 v2 with
    | .kUint => pure (.u ((toUintD v1 + toUintD v2) % 2 ^ 64))
    | .kInt => pure (.i (wrapI64 (toIntD v1 + toIntD v2)))
    | .kFloat => do
      let q1 ← valueToNumber v1
      let q2 ← valueToNumber v2
      pure (.f (q1 + q2))
    | .kComplex => do
      let (r1, i1) ← valueToComplex v1
      let (r2, i2) ← valueToComplex v2
      pure (.c (r1 + r2) (i1 + i2))
    | .kString => pure (.s "")
  pushNumberValue result t1 t2

/-- Result of the `__lt` metamethod: a boolean pushed on the stack, or no
value pushed at all (the `commonKind = Complex128` case falls through the
switch in the source and pushes nothing). -/
inductive LtRes where
  | boolean (b : Bool)
  | nothingPushed
  deriving Repr, DecidableEq

/-- `number__lt` (`proxy.go`): compare in the promoted common kind.  Distinct
integer kinds and integer/float mixes promote to float and are compared as
numbers; only `valueToNumber` failures (non-numeric strings) raise an error. -/
def number__lt (o1 o2 : LOperand) : Except String LtRes := do
  let (v1, _) := valueOfProxyOrScalar o1
  let (v2, _) := valueOfProxyOrScalar o2
  match commonKind v1 v2 with
  | .kUint => .ok (.boolean (decide (toUintD v1 < toUintD v2)))
  | .kInt => .ok (.boolean (decide (toIntD v1 < toIntD v2)))
  | .kFloat => do
    let q1 ← valueToNumber v1
    let q2 ← valueToNumber v2
    .ok (.boolean (decide (q1 < q2)))
  | _ => .ok .nothingPushed

/-- A real (non-complex, non-string) numeric value. -/
def isRealNum (v : NumVal) : Prop :=
  unsizedKind v = .kInt ∨ unsizedKind v = .kUint ∨ unsizedKind v = .kFloat

instance (v : NumVal) : Decidable (isRealNum v) := by
  unfold isRealNum; infer_instance

/-- Numeric reading of a real numeric value (total restriction of
`valueToNumber`). -/
def toQ : NumVal → ℚ
  | .i z => (z : ℚ)
  | .u n => (n : ℚ)
  | .f q => q
  | _ => 0

theorem valueToNumber_of_isRealNum (v : NumVal) (h : isRealNum v) :
    valueToNumber v = .ok (toQ v) := by
  cases v <;> simp [valueToNumber, toQ] <;> simp [isRealNum, unsizedKind] at h

theorem except_bind_ok {ε α β : Type} (a : α) (f : α → Except ε β) :
    ((Except.ok a : Except ε α) >>= f) = f a := rfl

/-! ## Slice/array proxy indexing (source: `proxy.go`, `slice__index` and
`slice__newindex`)

The element values and their Lua conversion are opaque here (the claims are
about bounds checking); the element type is a type parameter. -/

/-- Errors raised by proxy operations via `RaiseError`. -/
inductive PErr where
  | indexOutOfRange
  deriving Repr, DecidableEq

/-- `slice__index` (`proxy.go`), numeric-index path: 1-based read.  Raises
"slice/array get: index out of range" unless `1 <= i <= len`; otherwise
pushes element `i - 1` of the underlying Go slice/array. -/
def slice__index {α : Type} (elems : List α) (i : ℤ) : Except PErr α :=
  if h : i < 1 ∨ i > (elems.length : ℤ) then .error .indexOutOfRange
  else .ok (elems.get ⟨(i - 1).toNat, by omega⟩)

/-- `slice__newindex` (`proxy.go`): 1-based write with the same bounds check;
in bounds, element `i - 1` is overwritten. -/
def slice__newindex {α : Type} (elems : List α) (i : ℤ) (val : α) :
    Except PErr (List α) :=
  if i < 1 ∨ i > (elems.length : ℤ) then .error .indexOutOfRange
  else .ok (elems.set (i - 1).toNat val)

/-! ## Map proxy indexing (source: `proxy.go`, `map__index`)

Models the string-key path of `map__index`: a map hit pushes the entry; on a
miss, the method sets of the map value (direct, then pointer-receiver) are
searched; a miss everywhere pushes Lua `nil` without raising. -/

/-- A Go map proxy with string-like keys: its entries, plus the method-name
sets of the map value (direct method set, and the pointer-receiver method
set searched after taking the value's address). -/
structure MapProxy (α : Type) where
  entries : List (String × α)
  methods : List String
  ptrMethods : List String

/-- What `map__index` leaves on the Lua stack. -/
inductive MIdxRes (α : Type) where
  | pushed (v : α)
  | wrappedMethod (name : String)
  | nilPushed
  deriving Repr, DecidableEq

/-- `map__index` (`proxy.go`), string-key path: map entry first; then
`MethodByName` on the value, then on its pointer; else push `nil` (the
source explicitly does not panic here, unlike `pushGoMethod`). -/
def map__index {α : Type} (m : MapProxy α) (key : String) : MIdxRes α :=
  match m.entries.lookup key with
  | some v => .pushed v
  | none =>
    if m.methods.contains key then .wrappedMethod key
    else if m.ptrMethods.contains key then .wrappedMethod key
    else .nilPushed

/-! ## Claim theorems: operators and proxy access -/

/-- C4: adding proxies of two distinct named integer subtypes yields the
native Lua number `8`; adding two proxies of the same named type `A` yields
an `A`-proxy holding `8`; adding an `A`-proxy and a bare Lua number literal
yields an `A`-proxy holding `8`. -/
theorem add_named_subtype_promotion (a b : ℕ) (hab : a ≠ b) :
    number__add (.proxy (.named a .kInt) (.i 5)) (.proxy (.named b .kInt) (.i 3))
      = .ok (.pushNum 8) ∧
    number__add (.proxy (.named a .kInt) (.i 5)) (.proxy (.named a .kInt) (.i 3))
      = .ok (.proxyV .numberMT (.named a .kInt) (.i 8)) ∧
    number__add (.proxy (.named a .kInt) (.i 5)) (.num 3)
      = .ok (.proxyV .numberMT (.named a .kInt) (.i 8)) := by
  refine ⟨?_, ?_, ?_⟩ <;>
    simp [number__add, valueOfProxyOrScalar, commonKind, unsizedKind, toIntD,
      pushNumberValue, isPredeclaredType, convertNum, kindOfPType, wrapI64,
      valueToNumber, except_bind_ok, hab] <;> norm_num [Int.tdiv]

/-- Witness for C4 at `a = 0`, `b = 1`. -/
theorem add_named_subtype_promotion_witness :
    number__add (.proxy (.named 0 .kInt) (.i 5)) (.proxy (.named 1 .kInt) (.i 3))
      = .ok (.pushNum 8) ∧
    number__add (.proxy (.named 0 .kInt) (.i 5)) (.proxy (.named 0 .kInt) (.i 3))
      = .ok (.proxyV .numberMT (.named 0 .kInt) (.i 8)) ∧
    number__add (.proxy (.named 0 .kInt) (.i 5)) (.num 3)
      = .ok (.proxyV .numberMT (.named 0 .kInt) (.i 8)) :=
  add_named_subtype_promotion 0 1 (by decide)

/-- C5 counterexample: comparing a signed-integer proxy with an
unsigned-integer proxy does NOT fail; `number__lt` promotes both operands to
float and pushes the boolean `true` for `A(1) < B(2)`. -/
theorem lt_cross_kind_no_error_cex :
    number__lt (.proxy (.named 0 .kInt) (.i 1)) (.proxy (.named 1 .kUint) (.u 2))
      = .ok (.boolean true) := by rfl

/-- C5 (amended): for numeric (non-complex) proxy operands of different
unsized kinds, `number__lt` promotes both to float and returns the boolean
numeric comparison; no type-mismatch error is raised. -/
theorem lt_cross_kind_promotes_to_float (t1 t2 : PType) (v1 v2 : NumVal)
    (h1 : isRealNum v1) (h2 : isRealNum v2)
    (hk : unsizedKind v1 ≠ unsizedKind v2) :
    number__lt (.proxy t1 v1) (.proxy t2 v2)
      = .ok (.boolean (decide (toQ v1 < toQ v2))) := by
  have hnc1 : unsizedKind v1 ≠ .kComplex := by
    rcases h1 with h | h | h <;> simp [h]
  have hnc2 : unsizedKind v2 ≠ .kComplex := by
    rcases h2 with h | h | h <;> simp [h]
  have hc : commonKind v1 v2 = .kFloat := by
    simp [commonKind, hk, hnc1, hnc2]
  simp [number__lt, valueOfProxyOrScalar, hc, except_bind_ok,
    valueToNumber_of_isRealNum v1 h1, valueToNumber_of_isRealNum v2 h2]

/-- Witness for the amended C5: an `int`-kind proxy compared with a
`float`-kind proxy returns a boolean. -/
theorem lt_cross_kind_promotes_to_float_witness :
    number__lt (.proxy (.named 0 .kInt) (.i 3)) (.proxy (.named 2 .kFloat) (.f (1/2)))
      = .ok (.boolean (decide ((3 : ℚ) < (1/2 : ℚ)))) :=
  lt_cross_kind_promotes_to_float _ _ _ _ (by decide) (by decide) (by decide)

/-- C9: a slice/array proxy read or write with integer index `i` succeeds
exactly when `1 ≤ i ≤ n`, accessing Go element `i - 1`; out-of-range indices
raise the index-out-of-range error on both read and write. -/
theorem slice_proxy_bounds {α : Type} (elems : List α) (i : ℤ) (val : α) :
    ((∃ v, slice__index elems i = .ok v) ↔ (1 ≤ i ∧ i ≤ (elems.length : ℤ))) ∧
    ((∃ l, slice__newindex elems i val = .ok l) ↔ (1 ≤ i ∧ i ≤ (elems.length : ℤ))) ∧
    (∀ v, elems.get? (i - 1).toNat = some v → 1 ≤ i →
      slice__index elems i = .ok v) ∧
    (1 ≤ i → i ≤ (elems.length : ℤ) →
      slice__newindex elems i val = .ok (elems.set (i - 1).toNat val)) ∧
    (i < 1 ∨ i > (elems.length : ℤ) →
      slice__index elems i = .error .indexOutOfRange ∧
      slice__newindex elems i val = .error .indexOutOfRange) := by
  unfold slice__index slice__newindex
  refine ⟨?_, ?_, ?_, ?_, ?_⟩
  · split
    · simp; omega
    · simp; omega
  · split
    · simp; omega
    · simp; omega
  · intro v hv h1
    obtain ⟨hlt, hget⟩ := List.get?_eq_some.mp hv
    split
    · omega
    · exact congrArg Except.ok hget
  · intro h1 h2
    split
    · omega
    · rfl
  · intro h
    constructor
    · split
      · rfl
      · omega
    · split
      · rfl
      · omega

/-- Witness for C9 at a concrete slice and index. -/
theorem slice_proxy_bounds_witness :
    ((∃ v, slice__index ([10, 20, 30] : List ℤ) (2 : ℤ) = Except.ok v) ↔
      ((1 : ℤ) ≤ 2 ∧ (2 : ℤ) ≤ (([10, 20, 30] : List ℤ).length : ℤ))) ∧
    ((∃ l, slice__newindex ([10, 20, 30] : List ℤ) (2 : ℤ) (99 : ℤ) = .ok l) ↔
      ((1 : ℤ) ≤ 2 ∧ (2 : ℤ) ≤ (([10, 20, 30] : List ℤ).length : ℤ))) ∧
    (∀ v, ([10, 20, 30] : List ℤ).get? ((2 : ℤ) - 1).toNat = some v → (1 : ℤ) ≤ 2 →
      slice__index ([10, 20, 30] : List ℤ) (2 : ℤ) = .ok v) ∧
    ((1 : ℤ) ≤ 2 → (2 : ℤ) ≤ (([10, 20, 30] : List ℤ).length : ℤ) →
      slice__newindex ([10, 20, 30] : List ℤ) (2 : ℤ) (99 : ℤ)
        = .ok (([10, 20, 30] : List ℤ).set ((2 : ℤ) - 1).toNat 99)) ∧
    ((2 : ℤ) < 1 ∨ (2 : ℤ) > (([10, 20, 30] : List ℤ).length : ℤ) →
      slice__index ([10, 20, 30] : List ℤ) (2 : ℤ) = .error .indexOutOfRange ∧
      slice__newindex ([10, 20, 30] : List ℤ) (2 : ℤ) (99 : ℤ)
        = .error .indexOutOfRange) :=
  slice_proxy_bounds ([10, 20, 30] : List ℤ) 2 99

/-- C10: on a string-keyed map proxy, a key that is neither an entry nor a
method (direct or pointer-receiver) pushes Lua `nil` without error; a key
that misses the map but matches a method yields a wrapped callable. -/
theorem map_index_miss_behaviour {α : Type} (m : MapProxy α) (key : String)
    (hmiss : m.entries.lookup key = none) :
    (key ∉ m.methods → key ∉ m.ptrMethods → map__index m key = .nilPushed) ∧
    (key ∈ m.methods ∨ key ∈ m.ptrMethods →
      map__index m key = .wrappedMethod key) := by
  constructor
  · intro h1 h2
    simp [map__index, hmiss, h1, h2]
  · intro h
    rcases h with h | h
    · simp [map__index, hmiss, h]
    · by_cases hm : key ∈ m.methods <;> simp [map__index, hmiss, hm, h]

/-- Witness for C10: a map with one entry and one pointer-receiver method. -/
theorem map_index_miss_behaviour_witness :
    ("absent" ∉ (MapProxy.mk [("x", (1 : ℤ))] [] ["Reset"]).methods →
      "absent" ∉ (MapProxy.mk [("x", (1 : ℤ))] [] ["Reset"]).ptrMethods →
      map__index (MapProxy.mk [("x", (1 : ℤ))] [] ["Reset"]) "absent" = .nilPushed) ∧
    ("absent" ∈ (MapProxy.mk [("x", (1 : ℤ))] [] ["Reset"]).methods ∨
      "absent" ∈ (MapProxy.mk [("x", (1 : ℤ))] [] ["Reset"]).ptrMethods →
      map__index (MapProxy.mk [("x", (1 : ℤ))] [] ["Reset"]) "absent"
        = .wrappedMethod "absent") :=
  map_index_miss_behaviour _ _ (by decide)

/-! ## The Lua-to-Go conversion engine (source: `luar.go`)

Models `luaToGo`, `copyTableToSlice`, `copyTableToMap`, `copyTableToStruct`,
`luaIsEmpty` and `luaMapLen` over a finite universe of Go types.  Lua tables
live in a read-only heap (`LuaHeap`, addresses are the table identities used
by `L.ToPointer`); tables have an array part (integer keys `1..n`, the value
of `L.ObjLen`) and a string-keyed hash part.  Produced Go slices, maps and
structs are allocated in a growing Go heap inside the state `St`, so that
sharing and cycles are observable; `visited` is the `map[uintptr]reflect.Value`
cycle tracker (the registered value for a struct target models `v.Addr()`,
hence struct identity is tracked by heap reference).  Fresh zero destination
values are assumed (the top-level `LuaToGo` allocates its target with
`reflect.New`); struct field types are fixed to `interface{}` and the
tag-to-field-name resolution is assumed already applied to the field list.
`reflect.Value.Convert` from Lua numbers (idealized as `ℚ`) to Go `int`
truncates toward zero.  Recursion is driven by explicit fuel; fuel
exhaustion reports a conversion error and is an artifact of the embedding
(theorems supply sufficient fuel). -/

/-- The modelled universe of Go target types. -/
inductive GoType where
  | tInt | tFloat | tStr | tBool | tPtrInt | tIface
  | tSlice (elem : GoType)
  | tMap (key elem : GoType)
  | tStruct (fields : List String)
  deriving Repr, DecidableEq

/-- Go values.  Slices, maps and structs produced by conversion are heap
references (struct identity models `v.Addr()` in the cycle tracker); `pInt`
is a value of type `*int` (`none` = nil pointer); `nilV` is the zero value
of the nil-able kinds (nil interface, nil slice, nil map, and the
unexamined zero struct). -/
inductive GoVal where
  | int (z : ℤ)
  | float (q : ℚ)
  | str (s : String)
  | bool (b : Bool)
  | pInt (o : Option ℤ)
  | nilV
  | sliceRef (g : ℕ)
  | mapRef (g : ℕ)
  | structRef (g : ℕ)
  deriving Repr, DecidableEq

/-- `reflect.Zero` on the modelled types. -/
def zeroOf : GoType → GoVal
  | .tInt => .int 0
  | .tFloat => .float 0
  | .tStr => .str ""
  | .tBool => .bool false
  | .tPtrInt => .pInt none
  | _ => .nilV

/-- Lua values: scalars, table references into the Lua heap, and the `Null`
sentinel proxy (`luar.null`).  Non-`Null` userdata are outside the model. -/
inductive LuaVal where
  | nilV
  | num (q : ℚ)
  | str (s : String)
  | boolean (b : Bool)
  | table (a : ℕ)
  | nullProxy
  deriving Repr, DecidableEq

/-- A Lua table: array part (keys `1..arr.length`) and string-keyed hash
part. -/
structure LuaTable where
  arr : List LuaVal
  hash : List (String × LuaVal)
  deriving Repr, DecidableEq

/-- The Lua heap: table identity (`L.ToPointer`) to table contents.  It is
never mutated by a Lua-to-Go conversion. -/
def LuaHeap := ℕ → LuaTable

/-- `L.ObjLen` on a table of this model: the length of the array part. -/
def objLen (t : LuaTable) : ℕ := t.arr.length

/-- `luaIsEmpty` (`luar.go`): true iff `lua_next` finds no pair. -/
def luaIsEmpty (t : LuaTable) : Bool := t.arr.isEmpty && t.hash.isEmpty

/-- `luaMapLen` (`luar.go`): counts all pairs of the table. -/
def luaMapLen (t : LuaTable) : ℕ := t.arr.length + t.hash.length

/-- The pairs enumerated by `lua_next`: array part with numeric keys `1..n`,
then the hash part with string keys. -/
def tablePairs (t : LuaTable) : List (LuaVal × LuaVal) :=
  (t.arr.enum.map fun p => (LuaVal.num ((p.1 : ℚ) + 1), p.2)) ++
    t.hash.map fun p => (LuaVal.str p.1, p.2)

/-- Go-side conversion state: heaps of produced slices, maps and structs,
and the call-scoped `visited` map from Lua table identity to the produced
Go value. -/
structure St where
  goSlices : List (List GoVal)
  goMaps : List (List (GoVal × GoVal))
  goStructs : List (List GoVal)
  visited : List (ℕ × GoVal)
  deriving Repr, DecidableEq

/-- The empty state a top-level `LuaToGo` call starts from. -/
def St.empty : St := ⟨[], [], [], []⟩

/-- Contents of slice slot `g`. -/
def St.sliceAt (st : St) (g : ℕ) : List GoVal := st.goSlices.getD g []

/-- `v.Index(i).Set(val)` on slice slot `g`. -/
def St.setSliceElem (st : St) (g i : ℕ) (v : GoVal) : St :=
  { st with goSlices := st.goSlices.set g ((st.sliceAt g).set i v) }

/-- `SetMapIndex` semantics: overwrite the entry of an equal key, else
append. -/
def assocSet : List (GoVal × GoVal) → GoVal → GoVal → List (GoVal × GoVal)
  | [], k, v => [(k, v)]
  | (k', v') :: rest, k, v =>
    if k' = k then (k, v) :: rest else (k', v') :: assocSet rest k v

/-- `v.SetMapIndex(key, val)` on map slot `g`. -/
def St.setMapEntry (st : St) (g : ℕ) (k v : GoVal) : St :=
  { st with goMaps := st.goMaps.set g (assocSet (st.goMaps.getD g []) k v) }

/-- `f.Set(val)` on field `i` of struct slot `g`. -/
def St.setStructField (st : St) (g i : ℕ) (v : GoVal) : St :=
  { st with goStructs := st.goStructs.set g ((st.goStructs.getD g []).set i v) }

/-- Conversion outcomes: a hard `ConvError`, or the partial-conversion
status `ErrTableConv` ("some table elements could not be converted"). -/
inductive ConvErr where
  | convError
  | errTableConv
  deriving Repr, DecidableEq

/-- The type of the recursive conversion call threaded through the
`copyTableTo*` helpers (in the source this is simply `luaToGo` itself). -/
abbrev Conv := GoType → LuaVal → St → St × GoVal × Option ConvErr

/-- The element loop of `copyTableToSlice`: convert `t[i]` for `i = 1..n`;
a failing element sets the `ErrTableConv` status and is skipped, a
successful one is written to position `i - 1` of slice slot `g`. -/
def sliceFill (conv : Conv) (te : GoType) (g : ℕ) :
    List LuaVal → ℕ → St → Option ConvErr → St × Option ConvErr
  | [], _, st, status => (st, status)
  | x :: rest, i, st, status =>
    let r := conv te x st
    match r.2.2 with
    | some _ => sliceFill conv te g rest (i + 1) r.1 (some .errTableConv)
    | none => sliceFill conv te g rest (i + 1) (r.1.setSliceElem g i r.2.1) status

/-- `copyTableToSlice` (`luar.go`): read `n = L.ObjLen`, size the fresh
destination (a fresh nil slice stays nil when `n = 0`; the interface branch
of `luaToGo` pre-allocates with `reflect.MakeSlice` even for `n = 0`, which
`preAlloc` records), register the new slice in `visited` before converting
children -- but never for a zero-length table -- then run the element
loop. -/
def copyTableToSlice (conv : Conv) (h : LuaHeap) (te : GoType) (a : ℕ)
    (preAlloc : Bool) (st : St) : St × GoVal × Option ConvErr :=
  let arr := (h a).arr
  let n := arr.length
  if n = 0 ∧ !preAlloc then (st, .nilV, none)
  else
    let g := st.goSlices.length
    let st1 := { st with goSlices := st.goSlices ++ [List.replicate n (zeroOf te)] }
    let st2 :=
      if n = 0 then st1
      else { st1 with visited := (a, GoVal.sliceRef g) :: st1.visited }
    let r := sliceFill conv te g arr 0 st2 none
    (r.1, .sliceRef g, r.2)

/-- The pair loop of `copyTableToMap`: convert key then value; a failure of
either sets `ErrTableConv` and skips the pair. -/
def mapFill (conv : Conv) (tk te : GoType) (g : ℕ) :
    List (LuaVal × LuaVal) → St → Option ConvErr → St × Option ConvErr
  | [], st, status => (st, status)
  | (lk, lv) :: rest, st, status =>
    let rk := conv tk lk st
    match rk.2.2 with
    | some _ => mapFill conv tk te g rest rk.1 (some .errTableConv)
    | none =>
      let rv := conv te lv rk.1
      match rv.2.2 with
      | some _ => mapFill conv tk te g rest rv.1 (some .errTableConv)
      | none => mapFill conv tk te g rest (rv.1.setMapEntry g rk.2.1 rv.2.1) status

/-- `copyTableToMap` (`luar.go`): allocate the fresh nil destination map
(`reflect.MakeMap`), register it in `visited` unless the table is empty,
then convert every pair. -/
def copyTableToMap (conv : Conv) (h : LuaHeap) (tk te : GoType) (a : ℕ)
    (st : St) : St × GoVal × Option ConvErr :=
  let tbl := h a
  let g := st.goMaps.length
  let st1 := { st with goMaps := st.goMaps ++ [[]] }
  let st2 :=
    if luaIsEmpty tbl then st1
    else { st1 with visited := (a, GoVal.mapRef g) :: st1.visited }
  let r := mapFill conv tk te g (tablePairs tbl) st2 none
  (r.1, .mapRef g, r.2)

/-- `L.ToString` applied to a table key during struct conversion: numbers
render in decimal, strings are themselves, other keys give no usable name. -/
def keyString : LuaVal → Option String
  | .num q => some (if q.den = 1 then toString q.num else toString q)
  | .str s => some s
  | _ => none

/-- The pair loop of `copyTableToStruct`: resolve each key against the
field list; unmatched keys are skipped silently (`FieldByName` of a missing
name is not settable); a failing field value sets `ErrTableConv`. -/
def structFill (conv : Conv) (fields : List String) (g : ℕ) :
    List (LuaVal × LuaVal) → St → Option ConvErr → St × Option ConvErr
  | [], st, status => (st, status)
  | (lk, lv) :: rest, st, status =>
    match (keyString lk).bind fun ks => fields.indexOf? ks with
    | none => structFill conv fields g rest st status
    | some j =>
      let r := conv .tIface lv st
      match r.2.2 with
      | some _ => structFill conv fields g rest r.1 (some .errTableConv)
      | none => structFill conv fields g rest (r.1.setStructField g j r.2.1) status

/-- `copyTableToStruct` (`luar.go`): register the struct's address
(`v.Addr()`) in `visited` unless the table is empty, then set every field
whose (tag-resolved) name matches a key. -/
def copyTableToStruct (conv : Conv) (h : LuaHeap) (fields : List String)
    (a : ℕ) (st : St) : St × GoVal × Option ConvErr :=
  let tbl := h a
  let g := st.goStructs.length
  let st1 := { st with goStructs := st.goStructs ++ [fields.map fun _ => GoVal.nilV] }
  let st2 :=
    if luaIsEmpty tbl then st1
    else { st1 with visited := (a, GoVal.structRef g) :: st1.visited }
  let r := structFill conv fields g (tablePairs tbl) st2 none
  (r.1, .structRef g, r.2)

/-- The pointer-dereference loop at the top of `luaToGo`: a nil `*int`
destination is allocated (`reflect.New`) and conversion continues on the
pointed-to `int`. -/
def stripPtr : GoType → GoType
  | .tPtrInt => .tInt
  | t => t

/-- Re-attach the pointer allocated by the dereference loop: the conversion
wrote through it, so the element is a non-nil pointer to the written
value. -/
def wrapPtr : GoType → GoVal → GoVal
  | .tPtrInt, .int z => .pInt (some z)
  | _, w => w

/-- `luaToGo` (`luar.go`): dereference pointer targets (allocating), then
dispatch on the Lua value.  `nil` sets the zero value; booleans, numbers
and strings convert exactly on kind match (numbers truncate toward zero
into integer targets) and fail otherwise; the `Null` proxy sets the zero
value of the (dereferenced) target; a table is first looked up in
`visited`, then dispatched by target kind -- an interface target infers
map-vs-slice by comparing `luaMapLen` with `L.ObjLen` (keys beyond the
array part mean `map[string]interface{}`, else `[]interface{}` is
pre-allocated with `reflect.MakeSlice`). -/
def luaToGo (h : LuaHeap) : ℕ → GoType → LuaVal → St → St × GoVal × Option ConvErr
  | 0, t, _, st => (st, zeroOf (stripPtr t), some .convError)
  | fuel + 1, t0, v, st =>
    let t := stripPtr t0
    let r : St × GoVal × Option ConvErr :=
      match v with
      | .nilV => (st, zeroOf t, none)
      | .boolean b =>
        if t = .tBool ∨ t = .tIface then (st, .bool b, none)
        else (st, zeroOf t, some .convError)
      | .num q =>
        match t with
        | .tInt => (st, .int (q.num.tdiv (q.den : ℤ)), none)
        | .tFloat => (st, .float q, none)
        | .tIface => (st, .float q, none)
        | _ => (st, zeroOf t, some .convError)
      | .str s =>
        if t = .tStr ∨ t = .tIface then (st, .str s, none)
        else (st, zeroOf t, some .convError)
      | .nullProxy => (st, zeroOf t, none)
      | .table a =>
        match List.lookup a st.visited with
        | some val => (st, val, none)
        | none =>
          match t with
          | .tSlice te => copyTableToSlice (luaToGo h fuel) h te a false st
          | .tMap tk te => copyTableToMap (luaToGo h fuel) h tk te a st
          | .tStruct fields => copyTableToStruct (luaToGo h fuel) h fields a st
          | .tIface =>
            if luaMapLen (h a) ≠ objLen (h a) then
              copyTableToMap (luaToGo h fuel) h .tStr .tIface a st
            else
              copyTableToSlice (luaToGo h fuel) h .tIface a true st
          | _ => (st, zeroOf t, some .convError)
    (r.1, wrapPtr t0 r.2.1, r.2.2)

/-! ## The Go-to-Lua copy direction for slices (source: `luar.go`,
`copySliceToTable` and the scalar cases of `goToLua`)

Only slices of scalar or `*int` elements are modelled on this direction
(nested composites are exercised through the Lua-to-Go interpreter above);
for such elements the GoToLua visitor plays no role, so it is omitted.

Integer elements are pushed with `L.PushNumber(float64(v.Int()))`: the
`int64`-to-`float64` conversion rounds to 53 significant bits (round to
nearest, ties to even), which is modelled exactly by `f64ofInt` below.
Values of magnitude at most `2 ^ 53` are unchanged; `2 ^ 53 + 1` rounds to
`2 ^ 53`. -/

/-- The unit-in-the-last-place exponent of a natural `n > 2 ^ 53` in the
`int64` range: the `k ∈ 1..11` with `2 ^ (k + 52) ≤ n < 2 ^ (k + 53)`
(so the nearest `float64` is a multiple of `2 ^ k`). -/
def ulpExp (n : ℕ) : ℕ :=
  (((List.range 11).map fun k => k + 1).find? fun k => n < 2 ^ (k + 53)).getD 11

/-- Round `n` to a multiple of `ulp`, ties to even (the IEEE 754 default
rounding used by Go's `int64`-to-`float64` conversion). -/
def roundEven (n ulp : ℕ) : ℕ :=
  let q := n / ulp
  let r := n % ulp
  if 2 * r < ulp then q * ulp
  else if 2 * r > ulp then (q + 1) * ulp
  else (if q % 2 = 0 then q else q + 1) * ulp

/-- `float64(n)` for a natural in the `int64` range: exact up to `2 ^ 53`,
rounded to 53 significant bits above. -/
def f64ofNat (n : ℕ) : ℕ :=
  if n ≤ 2 ^ 53 then n else roundEven n (2 ^ ulpExp n)

/-- `float64(z)` for an `int64` (the quantization is sign-symmetric); the
result is always integer-valued. -/
def f64ofInt (z : ℤ) : ℤ :=
  if z < 0 then -(f64ofNat z.natAbs : ℤ) else (f64ofNat z.natAbs : ℤ)

theorem f64ofInt_eq_self (z : ℤ) (hz : z.natAbs ≤ 2 ^ 53) : f64ofInt z = z := by
  unfold f64ofInt f64ofNat
  rw [if_pos hz]
  split <;> omega

/-- `isNil` (`luar.go`): nil values of the nil-able kinds. -/
def isNilG : GoVal → Bool
  | .pInt none => true
  | .nilV => true
  | _ => false

/-- The scalar cases of `goToLua` in copy (non-proxify) mode: integers are
pushed with `L.PushNumber(float64(v.Int()))` (quantized through `float64`
by `f64ofInt`), floats and strings and booleans natively; non-nil pointers
are followed. -/
def goToLuaScalar : GoVal → LuaVal
  | .int z => .num ((f64ofInt z : ℚ))
  | .float q => .num q
  | .str s => .str s
  | .bool b => .boolean b
  | .pInt (some z) => .num ((f64ofInt z : ℚ))
  | _ => .nilV

/-- `copySliceToTable` (`luar.go`): build the table's array part; a nil
element is replaced by the `Null` sentinel (`nullv`) and pushed as its
proxy; other elements are pushed by `goToLua` in copy mode. -/
def copySliceToTable (elems : List GoVal) : List LuaVal :=
  elems.map fun e => if isNilG e then .nullProxy else goToLuaScalar e

/-- `GoToLua` in copy mode followed by `LuaToGo` against the slice type:
place the produced table in a one-table Lua heap and convert it back,
returning the element list of the produced Go slice.  A nil-slice result
(empty source table) is identified with the empty element list: Go slice
equality is modelled element-wise. -/
def roundtripSlice (t : GoType) (elems : List GoVal) : Option (List GoVal) :=
  let h : LuaHeap := fun _ => ⟨copySliceToTable elems, []⟩
  match luaToGo h 2 (.tSlice t) (.table 0) St.empty with
  | (st, .sliceRef g, none) => some (st.sliceAt g)
  | (_, .nilV, none) => some []
  | _ => none

/-- Strict element typing for the scalar element types of the model. -/
def isScalarOfType : GoVal → GoType → Bool
  | .int _, .tInt => true
  | .float _, .tFloat => true
  | .str _, .tStr => true
  | .bool _, .tBool => true
  | _, _ => false

/-- Elements whose copy to Lua converts back exactly at target type `t`:
well-typed scalars at the scalar types -- an int only when its value
survives the `float64` push (magnitude at most `2 ^ 53`) -- and
nil/predeclared-scalar values at the interface type. -/
def elemRoundOK : GoType → GoVal → Bool
  | .tInt, .int z => decide (z.natAbs ≤ 2 ^ 53)
  | .tFloat, .float _ => true
  | .tStr, .str _ => true
  | .tBool, .bool _ => true
  | .tIface, .nilV => true
  | .tIface, .float _ => true
  | .tIface, .str _ => true
  | .tIface, .bool _ => true
  | _, _ => false

/-- The element values `copySliceToTable` is modelled on: everything but
the heap references of nested composites. -/
def ifaceScalar : GoVal → Bool
  | .sliceRef _ => false
  | .mapRef _ => false
  | .structRef _ => false
  | _ => true

/-- The element-wise effect of the interface round trip: nil values (nil
interface or nil pointer) come back as the nil interface; int and `*int`
values come back as the `float64` of their (quantized) numeric value;
floats, strings and booleans come back unchanged. -/
def ifaceRoundElem : GoVal → GoVal
  | .nilV => .nilV
  | .pInt none => .nilV
  | .int z => .float ((f64ofInt z : ℚ))
  | .pInt (some z) => .float ((f64ofInt z : ℚ))
  | .float q => .float q
  | .str s => .str s
  | .bool b => .bool b
  | e => e

/-- Values the interface round trip preserves exactly. -/
def ifaceExact : GoVal → Bool
  | .float _ => true
  | .str _ => true
  | .bool _ => true
  | _ => false

/-! ## Round-trip lemmas -/

theorem sliceAt_setSliceElem_self (st : St) (g i : ℕ) (v : GoVal) :
    (st.setSliceElem g i v).sliceAt g = (st.sliceAt g).set i v := by
  unfold St.setSliceElem St.sliceAt
  by_cases hg : g < st.goSlices.length
  · rw [List.getD_eq_getD_get?, List.get?_set_eq_of_lt _ hg, Option.getD_some]
  · push_neg at hg
    rw [List.set_eq_of_length_le hg, List.getD_eq_default _ _ hg, List.set_nil]

theorem sliceAt_setSliceElem_ne (st : St) (g g' i : ℕ) (v : GoVal)
    (hne : g ≠ g') : (st.setSliceElem g i v).sliceAt g' = st.sliceAt g' := by
  unfold St.setSliceElem St.sliceAt
  rw [List.getD_eq_getD_get?, List.get?_set_ne _ _ hne, ← List.getD_eq_getD_get?]

/-- A round-trippable scalar (or `Null`) pushed by the copy direction
converts back to exactly the original element, leaving the conversion
state untouched. -/
theorem decode_encode (h : LuaHeap) (fuel : ℕ) (t : GoType) (e : GoVal)
    (st : St) (he : elemRoundOK t e = true) :
    luaToGo h (fuel + 1) t (if isNilG e then .nullProxy else goToLuaScalar e) st
      = (st, e, none) := by
  cases t <;> cases e <;>
    simp_all [elemRoundOK, isNilG, goToLuaScalar, luaToGo, stripPtr, wrapPtr,
      zeroOf, f64ofInt_eq_self]

/-- Any modelled scalar (or nil) element pushed by the copy direction
converts back at the interface target to `ifaceRoundElem` of itself,
leaving the conversion state untouched. -/
theorem decode_encode_iface (h : LuaHeap) (fuel : ℕ) (e : GoVal) (st : St)
    (he : ifaceScalar e = true) :
    luaToGo h (fuel + 1) .tIface (if isNilG e then .nullProxy else goToLuaScalar e) st
      = (st, ifaceRoundElem e, none) := by
  cases e with
  | pInt o =>
    cases o <;>
      simp [isNilG, goToLuaScalar, luaToGo, stripPtr, wrapPtr, zeroOf, ifaceRoundElem]
  | sliceRef g => simp [ifaceScalar] at he
  | mapRef g => simp [ifaceScalar] at he
  | structRef g => simp [ifaceScalar] at he
  | _ =>
    simp [isNilG, goToLuaScalar, luaToGo, stripPtr, wrapPtr, zeroOf, ifaceRoundElem]

/-- A non-nil modelled scalar never round-trips to the nil interface. -/
theorem ifaceRoundElem_ne_nil (e : GoVal) (hs : ifaceScalar e = true)
    (hn : isNilG e = false) : ifaceRoundElem e ≠ .nilV := by
  cases e with
  | pInt o => cases o <;> simp_all [ifaceScalar, isNilG, ifaceRoundElem]
  | _ => simp_all [ifaceScalar, isNilG, ifaceRoundElem]

/-- Floats, strings and booleans are preserved exactly by the interface
round trip. -/
theorem ifaceRoundElem_exact (e : GoVal) (hx : ifaceExact e = true) :
    ifaceRoundElem e = e := by
  cases e <;> simp_all [ifaceExact, ifaceRoundElem]

/-- Sequential overwrite of list positions `i, i+1, ...`. -/
def setSeq : List GoVal → ℕ → List GoVal → List GoVal
  | l, _, [] => l
  | l, i, x :: xs => setSeq (l.set i x) (i + 1) xs

/-- Sequential `setSliceElem` on slot `g` at positions `i, i+1, ...`. -/
def setSeqSt : St → ℕ → ℕ → List GoVal → St
  | st, _, _, [] => st
  | st, g, i, x :: xs => setSeqSt (st.setSliceElem g i x) g (i + 1) xs

theorem setSeqSt_sliceAt (g : ℕ) : ∀ (xs : List GoVal) (st : St) (i : ℕ),
    (setSeqSt st g i xs).sliceAt g = setSeq (st.sliceAt g) i xs := by
  intro xs
  induction xs with
  | nil => intro st i; rfl
  | cons x xs ih =>
    intro st i
    simp only [setSeqSt, setSeq, ih, sliceAt_setSliceElem_self]

theorem take_set_succ {α : Type} (x : α) : ∀ (l : List α) (i : ℕ),
    i < l.length → (l.set i x).take (i + 1) = l.take i ++ [x] := by
  intro l
  induction l with
  | nil => intro i h; simp at h
  | cons a tl ih =>
    intro i h
    cases i with
    | zero => simp
    | succ i =>
      simp only [List.set_cons_succ, List.take_succ_cons, List.take, List.cons_append,
        List.cons.injEq, true_and]
      exact ih i (by simpa using h)

theorem setSeq_eq_take_append : ∀ (xs l : List GoVal) (i : ℕ),
    l.length = i + xs.length → setSeq l i xs = l.take i ++ xs := by
  intro xs
  induction xs with
  | nil =>
    intro l i h
    simp only [List.length_nil, Nat.add_zero] at h
    simp [setSeq, ← h, List.take_length]
  | cons x xs ih =>
    intro l i h
    simp only [setSeq]
    rw [ih (l.set i x) (i + 1) (by simp [List.length_set]; simp at h; omega)]
    rw [take_set_succ x l i (by simp at h; omega)]
    simp

/-- The element loop of `copyTableToSlice`, run on a table produced by
`copySliceToTable` from elements whose decode at `t` is given by `d`,
writes back `d` of each element in order. -/
theorem sliceFill_decode (f : Conv) (t : GoType) (g : ℕ)
    (P : GoVal → Bool) (d : GoVal → GoVal)
    (hf : ∀ e st, P e = true →
      f t (if isNilG e then .nullProxy else goToLuaScalar e) st = (st, d e, none)) :
    ∀ (elems : List GoVal) (i : ℕ) (st : St),
      (∀ e ∈ elems, P e = true) →
      sliceFill f t g (copySliceToTable elems) i st none
        = (setSeqSt st g i (elems.map d), none) := by
  intro elems
  induction elems with
  | nil => intro i st _; rfl
  | cons e rest ih =>
    intro i st hok
    have he : P e = true := hok e (by simp)
    simp only [copySliceToTable, List.map_cons, sliceFill, hf e st he, setSeqSt]
    exact ih (i + 1) (st.setSliceElem g i (d e)) fun x hx => hok x (by simp [hx])

/-- `luaToGo` on a not-yet-visited table against a slice target dispatches
to `copyTableToSlice`. -/
theorem luaToGo_table_slice (h : LuaHeap) (fuel : ℕ) (te : GoType) (a : ℕ)
    (st : St) (hlk : List.lookup a st.visited = none) :
    luaToGo h (fuel + 1) (.tSlice te) (.table a) st
      = copyTableToSlice (luaToGo h fuel) h te a false st := by
  simp only [luaToGo, stripPtr, hlk, wrapPtr]

/-- `copyTableToSlice` from the empty state on a table produced by
`copySliceToTable` recovers `d` of each element in the freshly allocated
slice slot `0`. -/
theorem copyTableToSlice_decode (f : Conv) (t : GoType) (h : LuaHeap) (a : ℕ)
    (P : GoVal → Bool) (d : GoVal → GoVal)
    (elems : List GoVal) (harr : (h a).arr = copySliceToTable elems)
    (hf : ∀ e st, P e = true →
      f t (if isNilG e then .nullProxy else goToLuaScalar e) st = (st, d e, none))
    (hok : ∀ e ∈ elems, P e = true) (hne : elems ≠ []) :
    ∃ st', copyTableToSlice f h t a false St.empty = (st', .sliceRef 0, none) ∧
      st'.sliceAt 0 = elems.map d := by
  simp only [copyTableToSlice, harr, St.empty, List.length_nil]
  have hlen : (copySliceToTable elems).length = elems.length := by
    simp [copySliceToTable]
  rw [hlen]
  have hlp : elems.length ≠ 0 := by
    cases elems with
    | nil => exact absurd rfl hne
    | cons x xs => simp
  rw [if_neg (by simp [hlp]), if_neg hlp]
  rw [sliceFill_decode f t _ P d hf elems 0 _ hok]
  refine ⟨_, rfl, ?_⟩
  show (setSeqSt _ _ _ _).sliceAt 0 = elems.map d
  rw [setSeqSt_sliceAt]
  have hslot : (St.sliceAt
      { goSlices := [] ++ [List.replicate elems.length (zeroOf t)],
        goMaps := [], goStructs := [],
        visited := [(a, GoVal.sliceRef 0)] } 0)
      = List.replicate elems.length (zeroOf t) := by
    simp [St.sliceAt]
  rw [hslot, setSeq_eq_take_append (elems.map d) _ 0 (by simp)]
  simp

/-- The slice round trip applies the element-wise decode map `d`. -/
theorem roundtrip_map (t : GoType) (P : GoVal → Bool) (d : GoVal → GoVal)
    (hd : ∀ (h : LuaHeap) (e : GoVal) (st : St), P e = true →
      luaToGo h 1 t (if isNilG e then .nullProxy else goToLuaScalar e) st
        = (st, d e, none))
    (elems : List GoVal) (hok : ∀ e ∈ elems, P e = true) :
    roundtripSlice t elems = some (elems.map d) := by
  cases elems with
  | nil => rfl
  | cons e rest =>
    simp only [roundtripSlice]
    obtain ⟨st', heq, hslot⟩ := copyTableToSlice_decode
      (luaToGo (fun _ => ⟨copySliceToTable (e :: rest), []⟩) 1) t
      (fun _ => ⟨copySliceToTable (e :: rest), []⟩) 0 P d (e :: rest) rfl
      (fun e' st'' he' => hd _ e' st'' he')
      hok (by simp)
    rw [show (2 : ℕ) = 1 + 1 from rfl,
      luaToGo_table_slice _ 1 t 0 St.empty rfl, heq]
    show some (st'.sliceAt 0) = some ((e :: rest).map d)
    rw [hslot]

/-- Round trip for slices of round-trippable elements. -/
theorem roundtrip_ok (t : GoType) (elems : List GoVal)
    (hok : ∀ e ∈ elems, elemRoundOK t e = true) :
    roundtripSlice t elems = some elems := by
  have h := roundtrip_map t (elemRoundOK t) id
    (fun h e st he => decode_encode h 0 t e st he) elems hok
  simpa using h

/-- C1 counterexample: the copy direction pushes int elements through
`float64` (`L.PushNumber(float64(v.Int()))`), so `[]int{2^53 + 1}` rounds
to `2^53` on the way out and comes back as `[]int{2^53}`, not equal to the
original slice. -/
theorem slice_copy_roundtrip_cex :
    roundtripSlice .tInt [.int (2 ^ 53 + 1)] = some [.int (2 ^ 53)] ∧
    roundtripSlice .tInt [.int (2 ^ 53 + 1)] ≠ some [.int (2 ^ 53 + 1)] := by
  constructor
  · decide
  · decide

/-- C1 (amended): a Go slice whose element type is supported in both
conversion directions (the predeclared scalar types int, float64, string,
bool), copied to a Lua table with GoToLua in copy mode and converted back
with LuaToGo against the slice type, yields a slice equal to the original,
provided every int element is exactly representable in `float64`
(magnitude at most `2 ^ 53`); the other scalar types round-trip
unconditionally. -/
theorem slice_copy_roundtrip (t : GoType) (elems : List GoVal)
    (ht : t = .tInt ∨ t = .tFloat ∨ t = .tStr ∨ t = .tBool)
    (hwt : ∀ e ∈ elems, isScalarOfType e t = true)
    (hexact : ∀ z : ℤ, GoVal.int z ∈ elems → z.natAbs ≤ 2 ^ 53) :
    roundtripSlice t elems = some elems := by
  apply roundtrip_ok
  intro e he
  have h := hwt e he
  rcases ht with rfl | rfl | rfl | rfl <;> cases e <;>
    simp_all [isScalarOfType, elemRoundOK] <;>
    exact hexact _ he

/-- Witness for the amended C1 at `[]int{1, -2, 3}`. -/
theorem slice_copy_roundtrip_witness :
    roundtripSlice .tInt [.int 1, .int (-2), .int 3]
      = some [.int 1, .int (-2), .int 3] :=
  slice_copy_roundtrip .tInt _ (Or.inl rfl) (by decide)
    (by
      intro z hz
      simp at hz
      rcases hz with rfl | rfl | rfl <;> decide)

/-- C6 counterexample: with the nil-able pointer element type `*int`, the
Null sentinel round-trips to a freshly allocated non-nil pointer to zero
(the pointer-dereference loop of `luaToGo` allocates before the Null case
zeroes the pointee), so the result does NOT have absent elements at
positions 0 and 2. -/
theorem null_positions_ptr_cex :
    roundtripSlice .tPtrInt [.pInt none, .pInt (some 7), .pInt none]
      = some [.pInt (some 0), .pInt (some 7), .pInt (some 0)] ∧
    GoVal.pInt (some 0) ≠ GoVal.pInt none := by
  constructor
  · decide
  · decide

theorem get?_map_eq {α β : Type} (f : α → β) (l : List α) (n : ℕ) :
    (l.map f).get? n = (l.get? n).map f := by
  rw [List.get?_eq_getElem?, List.get?_eq_getElem?, List.getElem?_map]

/-- C6 (amended): for a slice of interface-typed elements (nil or modelled
scalars: int, float64, string, bool, `*int`) with nil elements at exactly
positions 0 and 2, the copy places the Null sentinel proxy at exactly
those table positions, and the round trip applies `ifaceRoundElem`
element-wise: the result has absent (nil) elements at exactly positions 0
and 2 (every other position holds a non-nil value), float64, string and
bool values are preserved exactly, while int and `*int` values come back
as the `float64` of their numeric value. -/
theorem null_positions_preserved_iface (elems : List GoVal)
    (hdom : ∀ e ∈ elems, ifaceScalar e = true)
    (h0 : elems.get? 0 = some .nilV) (h2 : elems.get? 2 = some .nilV)
    (hdef : ∀ i e, i ≠ 0 → i ≠ 2 → elems.get? i = some e → isNilG e = false) :
    (copySliceToTable elems).get? 0 = some .nullProxy ∧
    (copySliceToTable elems).get? 2 = some .nullProxy ∧
    roundtripSlice .tIface elems = some (elems.map ifaceRoundElem) ∧
    (elems.map ifaceRoundElem).get? 0 = some .nilV ∧
    (elems.map ifaceRoundElem).get? 2 = some .nilV ∧
    (∀ i e, i ≠ 0 → i ≠ 2 → elems.get? i = some e →
      (elems.map ifaceRoundElem).get? i = some (ifaceRoundElem e) ∧
      ifaceRoundElem e ≠ .nilV) ∧
    (∀ e, ifaceExact e = true → ifaceRoundElem e = e) := by
  refine ⟨?_, ?_, ?_, ?_, ?_, ?_, fun e hx => ifaceRoundElem_exact e hx⟩
  · have h0' : elems[0]? = some GoVal.nilV := by
      rw [← List.get?_eq_getElem?]; exact h0
    simp [copySliceToTable, List.getElem?_map, h0', isNilG]
  · have h2' : elems[2]? = some GoVal.nilV := by
      rw [← List.get?_eq_getElem?]; exact h2
    simp [copySliceToTable, List.getElem?_map, h2', isNilG]
  · exact roundtrip_map .tIface ifaceScalar ifaceRoundElem
      (fun h e st he => decode_encode_iface h 0 e st he) elems hdom
  · rw [get?_map_eq, h0]; rfl
  · rw [get?_map_eq, h2]; rfl
  · intro i e hi0 hi2 hg
    refine ⟨by rw [get?_map_eq, hg]; rfl, ?_⟩
    exact ifaceRoundElem_ne_nil e (hdom e (List.get?_mem hg)) (hdef i e hi0 hi2 hg)

/-- Witness for the amended C6 at `[]interface{ }{nil, 7.0, nil}`. -/
theorem null_positions_preserved_iface_witness :
    (copySliceToTable [.nilV, .float 7, .nilV]).get? 0 = some .nullProxy ∧
    (copySliceToTable [.nilV, .float 7, .nilV]).get? 2 = some .nullProxy ∧
    roundtripSlice .tIface [.nilV, .float 7, .nilV]
      = some ([GoVal.nilV, .float 7, .nilV].map ifaceRoundElem) ∧
    ([GoVal.nilV, .float 7, .nilV].map ifaceRoundElem).get? 0 = some .nilV ∧
    ([GoVal.nilV, .float 7, .nilV].map ifaceRoundElem).get? 2 = some .nilV ∧
    (∀ i e, i ≠ 0 → i ≠ 2 → [GoVal.nilV, .float 7, .nilV].get? i = some e →
      ([GoVal.nilV, .float 7, .nilV].map ifaceRoundElem).get? i
        = some (ifaceRoundElem e) ∧ ifaceRoundElem e ≠ .nilV) ∧
    (∀ e, ifaceExact e = true → ifaceRoundElem e = e) :=
  null_positions_preserved_iface _ (by decide) (by decide) (by decide)
    (by
      intro i e h1 h3 hg
      match i, h1, h3, hg with
      | 1, _, _, hg =>
        simp only [List.get?] at hg
        cases hg
        rfl
      | n + 3, _, _, hg => simp [List.get?] at hg
      | 0, h, _, _ => exact absurd rfl h
      | 2, _, h, _ => exact absurd rfl h)

/-- C3: converting the 3-element Lua sequence `{s1, q, s3}` (a number in
the middle) to a Go `[]string` populates positions 0 and 2 from the
convertible elements, leaves position 1 at the zero value, and returns the
partial-conversion status `ErrTableConv` instead of failing the whole
conversion. -/
theorem partial_slice_conversion (s1 s3 : String) (q : ℚ) :
    luaToGo (fun _ => ⟨[.str s1, .num q, .str s3], []⟩) 2 (.tSlice .tStr)
        (.table 0) St.empty
      = ({ goSlices := [[.str s1, .str "", .str s3]], goMaps := [],
           goStructs := [], visited := [(0, .sliceRef 0)] },
         .sliceRef 0, some .errTableConv) := by
  rw [show (2 : ℕ) = 1 + 1 from rfl, luaToGo_table_slice _ 1 .tStr 0 St.empty rfl]
  simp [copyTableToSlice, sliceFill, luaToGo, stripPtr, wrapPtr, zeroOf,
    St.setSliceElem, St.sliceAt, St.empty]

/-! ## Preservation invariants of the conversion engine

`convOK` captures what one conversion step may do to the Go heap and the
cycle tracker: it only appends new slice slots (never rewrites existing
ones), and every `visited` entry it adds is a non-empty table.  It is
proved for `luaToGo` at every fuel by one induction, and yields both the
cycle-preservation claim and the empty-table claim. -/

theorem sliceAt_eq_get? (st : St) (g : ℕ) :
    st.sliceAt g = (st.goSlices.get? g).getD [] :=
  List.getD_eq_getD_get? _ _ _

theorem length_setSliceElem (st : St) (g i : ℕ) (v : GoVal) :
    (st.setSliceElem g i v).goSlices.length = st.goSlices.length := by
  simp [St.setSliceElem]

theorem get?_setSliceElem_ne (st : St) (g g' i : ℕ) (v : GoVal)
    (hne : g ≠ g') :
    (st.setSliceElem g i v).goSlices.get? g' = st.goSlices.get? g' := by
  simp [St.setSliceElem, List.getElem?_set_ne hne]

/-- What one recursive conversion call may do to the state. -/
def convOK (h : LuaHeap) (f : Conv) : Prop :=
  ∀ t v st,
    st.goSlices.length ≤ ((f t v st).1).goSlices.length ∧
    (∀ g, g < st.goSlices.length →
      ((f t v st).1).goSlices.get? g = st.goSlices.get? g) ∧
    (∀ p ∈ ((f t v st).1).visited, p ∈ st.visited ∨ luaIsEmpty (h p.1) = false)

theorem sliceFill_ok (h : LuaHeap) (f : Conv) (hf : convOK h f) (te : GoType)
    (g : ℕ) : ∀ (lst : List LuaVal) (i : ℕ) (st : St) (status : Option ConvErr),
    g < st.goSlices.length →
    (st.goSlices.length ≤ (sliceFill f te g lst i st status).1.goSlices.length ∧
     (∀ g', g' ≠ g → g' < st.goSlices.length →
       (sliceFill f te g lst i st status).1.goSlices.get? g'
         = st.goSlices.get? g') ∧
     (∀ j, j < i →
       ((sliceFill f te g lst i st status).1.sliceAt g).get? j
         = (st.sliceAt g).get? j) ∧
     (∀ p ∈ (sliceFill f te g lst i st status).1.visited,
       p ∈ st.visited ∨ luaIsEmpty (h p.1) = false)) := by
  intro lst
  induction lst with
  | nil =>
    intro i st status _
    exact ⟨le_refl _, fun _ _ _ => rfl, fun _ _ => rfl, fun p hp => Or.inl hp⟩
  | cons x rest ih =>
    intro i st status hg
    obtain ⟨hm, hp, hv⟩ := hf te x st
    rcases hr : f te x st with ⟨st1, w, e⟩
    rw [hr] at hm hp hv
    simp only [sliceFill, hr]
    have hsl : st1.sliceAt g = st.sliceAt g := by
      rw [sliceAt_eq_get?, sliceAt_eq_get?, hp g hg]
    cases e with
    | some err =>
      have hg1 : g < st1.goSlices.length := lt_of_lt_of_le hg hm
      obtain ⟨ihm, ihp, ihj, ihv⟩ := ih (i + 1) st1 (some .errTableConv) hg1
      refine ⟨le_trans hm ihm, ?_, ?_, ?_⟩
      · intro g' hne hlt
        rw [ihp g' hne (lt_of_lt_of_le hlt hm), hp g' hlt]
      · intro j hj
        rw [ihj j (Nat.lt_succ_of_lt hj), hsl]
      · intro p hpm
        rcases ihv p hpm with h1 | h1
        · exact hv p h1
        · exact Or.inr h1
    | none =>
      have hg1 : g < (st1.setSliceElem g i w).goSlices.length := by
        rw [length_setSliceElem]; exact lt_of_lt_of_le hg hm
      obtain ⟨ihm, ihp, ihj, ihv⟩ := ih (i + 1) (st1.setSliceElem g i w) status hg1
      refine ⟨?_, ?_, ?_, ?_⟩
      · calc st.goSlices.length ≤ st1.goSlices.length := hm
          _ = (st1.setSliceElem g i w).goSlices.length := (length_setSliceElem _ _ _ _).symm
          _ ≤ _ := ihm
      · intro g' hne hlt
        rw [ihp g' hne (by rw [length_setSliceElem]; exact lt_of_lt_of_le hlt hm),
          get?_setSliceElem_ne _ _ _ _ _ (Ne.symm hne), hp g' hlt]
      · intro j hj
        rw [ihj j (Nat.lt_succ_of_lt hj), sliceAt_setSliceElem_self, hsl,
          List.get?_set_ne _ _ (by omega)]
      · intro p hpm
        rcases ihv p hpm with h1 | h1
        · exact hv p h1
        · exact Or.inr h1

theorem mapFill_ok (h : LuaHeap) (f : Conv) (hf : convOK h f) (tk te : GoType)
    (g : ℕ) : ∀ (lst : List (LuaVal × LuaVal)) (st : St) (status : Option ConvErr),
    (st.goSlices.length ≤ (mapFill f tk te g lst st status).1.goSlices.length ∧
     (∀ g', g' < st.goSlices.length →
       (mapFill f tk te g lst st status).1.goSlices.get? g'
         = st.goSlices.get? g') ∧
     (∀ p ∈ (mapFill f tk te g lst st status).1.visited,
       p ∈ st.visited ∨ luaIsEmpty (h p.1) = false)) := by
  intro lst
  induction lst with
  | nil =>
    intro st status
    exact ⟨le_refl _, fun _ _ => rfl, fun p hp => Or.inl hp⟩
  | cons kv rest ih =>
    intro st status
    obtain ⟨lk, lv⟩ := kv
    obtain ⟨hmk, hpk, hvk⟩ := hf tk lk st
    rcases hrk : f tk lk st with ⟨st1, k, ek⟩
    rw [hrk] at hmk hpk hvk
    simp only [mapFill, hrk]
    cases ek with
    | some err =>
      obtain ⟨ihm, ihp, ihv⟩ := ih st1 (some .errTableConv)
      refine ⟨le_trans hmk ihm, ?_, ?_⟩
      · intro g' hlt
        rw [ihp g' (lt_of_lt_of_le hlt hmk), hpk g' hlt]
      · intro p hpm
        rcases ihv p hpm with h1 | h1
        · exact hvk p h1
        · exact Or.inr h1
    | none =>
      obtain ⟨hmv, hpv, hvv⟩ := hf te lv st1
      rcases hrv : f te lv st1 with ⟨st2, v, ev⟩
      rw [hrv] at hmv hpv hvv
      cases ev with
      | some err =>
        obtain ⟨ihm, ihp, ihv⟩ := ih st2 (some .errTableConv)
        refine ⟨le_trans hmk (le_trans hmv ihm), ?_, ?_⟩
        · intro g' hlt
          rw [ihp g' (lt_of_lt_of_le hlt (le_trans hmk hmv)),
            hpv g' (lt_of_lt_of_le hlt hmk), hpk g' hlt]
        · intro p hpm
          rcases ihv p hpm with h1 | h1
          · rcases hvv p h1 with h2 | h2
            · exact hvk p h2
            · exact Or.inr h2
          · exact Or.inr h1
      | none =>
        obtain ⟨ihm, ihp, ihv⟩ := ih (st2.setMapEntry g k v) status
        have hgeq : (st2.setMapEntry g k v).goSlices = st2.goSlices := rfl
        refine ⟨?_, ?_, ?_⟩
        · calc st.goSlices.length ≤ st2.goSlices.length := le_trans hmk hmv
            _ = (st2.setMapEntry g k v).goSlices.length := by rw [hgeq]
            _ ≤ _ := ihm
        · intro g' hlt
          rw [ihp g' (by rw [hgeq]; exact lt_of_lt_of_le hlt (le_trans hmk hmv))]
          rw [show (st2.setMapEntry g k v).goSlices.get? g' = st2.goSlices.get? g'
            from by rw [hgeq]]
          rw [hpv g' (lt_of_lt_of_le hlt hmk), hpk g' hlt]
        · intro p hpm
          rcases ihv p hpm with h1 | h1
          · rcases hvv p h1 with h2 | h2
            · exact hvk p h2
            · exact Or.inr h2
          · exact Or.inr h1

theorem structFill_ok (h : LuaHeap) (f : Conv) (hf : convOK h f)
    (fields : List String) (g : ℕ) :
    ∀ (lst : List (LuaVal × LuaVal)) (st : St) (status : Option ConvErr),
    (st.goSlices.length ≤ (structFill f fields g lst st status).1.goSlices.length ∧
     (∀ g', g' < st.goSlices.length →
       (structFill f fields g lst st status).1.goSlices.get? g'
         = st.goSlices.get? g') ∧
     (∀ p ∈ (structFill f fields g lst st status).1.visited,
       p ∈ st.visited ∨ luaIsEmpty (h p.1) = false)) := by
  intro lst
  induction lst with
  | nil =>
    intro st status
    exact ⟨le_refl _, fun _ _ => rfl, fun p hp => Or.inl hp⟩
  | cons kv rest ih =>
    intro st status
    obtain ⟨lk, lv⟩ := kv
    simp only [structFill]
    cases hks : (keyString lk).bind fun ks => fields.indexOf? ks with
    | none => exact ih st status
    | some j =>
      obtain ⟨hm, hp, hv⟩ := hf .tIface lv st
      rcases hr : f .tIface lv st with ⟨st1, w, e⟩
      rw [hr] at hm hp hv
      cases e with
      | some err =>
        obtain ⟨ihm, ihp, ihv⟩ := ih st1 (some .errTableConv)
        refine ⟨le_trans hm ihm, ?_, ?_⟩
        · intro g' hlt
          rw [ihp g' (lt_of_lt_of_le hlt hm), hp g' hlt]
        · intro p hpm
          rcases ihv p hpm with h1 | h1
          · exact hv p h1
          · exact Or.inr h1
      | none =>
        obtain ⟨ihm, ihp, ihv⟩ := ih (st1.setStructField g j w) status
        have hgeq : (st1.setStructField g j w).goSlices = st1.goSlices := rfl
        refine ⟨?_, ?_, ?_⟩
        · calc st.goSlices.length ≤ st1.goSlices.length := hm
            _ = (st1.setStructField g j w).goSlices.length := by rw [hgeq]
            _ ≤ _ := ihm
        · intro g' hlt
          rw [ihp g' (by rw [hgeq]; exact lt_of_lt_of_le hlt hm)]
          rw [show (st1.setStructField g j w).goSlices.get? g' = st1.goSlices.get? g'
            from by rw [hgeq]]
          rw [hp g' hlt]
        · intro p hpm
          rcases ihv p hpm with h1 | h1
          · rcases hv p h1 with h2 | h2
            · exact Or.inl h2
            · exact Or.inr h2
          · exact Or.inr h1

theorem copyTableToSlice_ok (h : LuaHeap) (f : Conv) (hf : convOK h f)
    (te : GoType) (a : ℕ) (pre : Bool) (st : St) :
    st.goSlices.length ≤ (copyTableToSlice f h te a pre st).1.goSlices.length ∧
    (∀ g, g < st.goSlices.length →
      (copyTableToSlice f h te a pre st).1.goSlices.get? g
        = st.goSlices.get? g) ∧
    (∀ p ∈ (copyTableToSlice f h te a pre st).1.visited,
      p ∈ st.visited ∨ luaIsEmpty (h p.1) = false) := by
  simp only [copyTableToSlice]
  by_cases hn : (h a).arr.length = 0 ∧ (!pre) = true
  · rw [if_pos hn]
    exact ⟨le_refl _, fun _ _ => rfl, fun p hp => Or.inl hp⟩
  · rw [if_neg hn]
    have hap : ∀ g, g < st.goSlices.length →
        (st.goSlices ++ [List.replicate (h a).arr.length (zeroOf te)]).get? g
          = st.goSlices.get? g := fun g hg => List.get?_append hg
    have hlen1 : st.goSlices.length ≤
        (st.goSlices ++ [List.replicate (h a).arr.length (zeroOf te)]).length := by
      simp
    by_cases hz : (h a).arr.length = 0
    · rw [if_pos hz]
      have harr : (h a).arr = [] := List.length_eq_zero.mp hz
      rw [harr]
      exact ⟨by simp [sliceFill], fun g hg => List.get?_append hg, fun p hp => Or.inl hp⟩
    · rw [if_neg hz]
      have hne : luaIsEmpty (h a) = false := by
        have harr : (h a).arr ≠ [] := fun hh => hz (by rw [hh]; rfl)
        cases hc : (h a).arr with
        | nil => exact absurd hc harr
        | cons y ys => simp [luaIsEmpty, hc]
      have hg0 : st.goSlices.length <
          ({ goSlices := st.goSlices ++ [List.replicate (h a).arr.length (zeroOf te)],
             goMaps := st.goMaps, goStructs := st.goStructs,
             visited := (a, GoVal.sliceRef st.goSlices.length) :: st.visited } : St).goSlices.length := by
        simp
      obtain ⟨sm, sp, _, sv⟩ := sliceFill_ok h f hf te st.goSlices.length
        (h a).arr 0 _ none hg0
      refine ⟨?_, ?_, ?_⟩
      · exact le_trans hlen1 (le_trans (by simp) sm)
      · intro g hg
        rw [sp g (by omega) (by simp; omega)]
        exact hap g hg
      · intro p hp
        rcases sv p hp with h1 | h1
        · rcases List.mem_cons.mp h1 with h2 | h2
          · subst h2; exact Or.inr hne
          · exact Or.inl h2
        · exact Or.inr h1

theorem copyTableToMap_ok (h : LuaHeap) (f : Conv) (hf : convOK h f)
    (tk te : GoType) (a : ℕ) (st : St) :
    st.goSlices.length ≤ (copyTableToMap f h tk te a st).1.goSlices.length ∧
    (∀ g, g < st.goSlices.length →
      (copyTableToMap f h tk te a st).1.goSlices.get? g
        = st.goSlices.get? g) ∧
    (∀ p ∈ (copyTableToMap f h tk te a st).1.visited,
      p ∈ st.visited ∨ luaIsEmpty (h p.1) = false) := by
  simp only [copyTableToMap]
  by_cases hz : luaIsEmpty (h a) = true
  · rw [if_pos hz]
    obtain ⟨sm, sp, sv⟩ := mapFill_ok h f hf tk te st.goMaps.length
      (tablePairs (h a))
      { goSlices := st.goSlices, goMaps := st.goMaps ++ [[]],
        goStructs := st.goStructs, visited := st.visited } none
    exact ⟨sm, fun g hg => sp g hg, fun p hp => sv p hp⟩
  · rw [if_neg hz]
    obtain ⟨sm, sp, sv⟩ := mapFill_ok h f hf tk te st.goMaps.length
      (tablePairs (h a))
      { goSlices := st.goSlices, goMaps := st.goMaps ++ [[]],
        goStructs := st.goStructs,
        visited := (a, GoVal.mapRef st.goMaps.length) :: st.visited } none
    refine ⟨sm, fun g hg => sp g hg, ?_⟩
    intro p hp
    rcases sv p hp with h1 | h1
    · rcases List.mem_cons.mp h1 with h2 | h2
      · subst h2
        exact Or.inr (Bool.not_eq_true _ ▸ hz : luaIsEmpty (h a) = false)
      · exact Or.inl h2
    · exact Or.inr h1

theorem copyTableToStruct_ok (h : LuaHeap) (f : Conv) (hf : convOK h f)
    (fields : List String) (a : ℕ) (st : St) :
    st.goSlices.length ≤ (copyTableToStruct f h fields a st).1.goSlices.length ∧
    (∀ g, g < st.goSlices.length →
      (copyTableToStruct f h fields a st).1.goSlices.get? g
        = st.goSlices.get? g) ∧
    (∀ p ∈ (copyTableToStruct f h fields a st).1.visited,
      p ∈ st.visited ∨ luaIsEmpty (h p.1) = false) := by
  simp only [copyTableToStruct]
  by_cases hz : luaIsEmpty (h a) = true
  · rw [if_pos hz]
    obtain ⟨sm, sp, sv⟩ := structFill_ok h f hf fields st.goStructs.length
      (tablePairs (h a))
      { goSlices := st.goSlices, goMaps := st.goMaps,
        goStructs := st.goStructs ++ [fields.map fun _ => GoVal.nilV],
        visited := st.visited } none
    exact ⟨sm, fun g hg => sp g hg, fun p hp => sv p hp⟩
  · rw [if_neg hz]
    obtain ⟨sm, sp, sv⟩ := structFill_ok h f hf fields st.goStructs.length
      (tablePairs (h a))
      { goSlices := st.goSlices, goMaps := st.goMaps,
        goStructs := st.goStructs ++ [fields.map fun _ => GoVal.nilV],
        visited := (a, GoVal.structRef st.goStructs.length) :: st.visited } none
    refine ⟨sm, fun g hg => sp g hg, ?_⟩
    intro p hp
    rcases sv p hp with h1 | h1
    · rcases List.mem_cons.mp h1 with h2 | h2
      · subst h2
        exact Or.inr (Bool.not_eq_true _ ▸ hz : luaIsEmpty (h a) = false)
      · exact Or.inl h2
    · exact Or.inr h1

/-- `luaToGo` satisfies the preservation invariant at every fuel. -/
theorem luaToGo_convOK (h : LuaHeap) : ∀ fuel, convOK h (luaToGo h fuel) := by
  intro fuel
  induction fuel with
  | zero =>
    intro t v st
    exact ⟨le_refl _, fun _ _ => rfl, fun p hp => Or.inl hp⟩
  | succ fuel ih =>
    intro t v st
    cases v with
    | nilV => exact ⟨le_refl _, fun _ _ => rfl, fun p hp => Or.inl hp⟩
    | boolean b =>
      simp only [luaToGo]
      split
      · exact ⟨le_refl _, fun _ _ => rfl, fun p hp => Or.inl hp⟩
      · exact ⟨le_refl _, fun _ _ => rfl, fun p hp => Or.inl hp⟩
    | num q =>
      simp only [luaToGo]
      split <;> exact ⟨le_refl _, fun _ _ => rfl, fun p hp => Or.inl hp⟩
    | str s =>
      simp only [luaToGo]
      split
      · exact ⟨le_refl _, fun _ _ => rfl, fun p hp => Or.inl hp⟩
      · exact ⟨le_refl _, fun _ _ => rfl, fun p hp => Or.inl hp⟩
    | nullProxy => exact ⟨le_refl _, fun _ _ => rfl, fun p hp => Or.inl hp⟩
    | table a =>
      simp only [luaToGo]
      cases hlk : List.lookup a st.visited with
      | some val => exact ⟨le_refl _, fun _ _ => rfl, fun p hp => Or.inl hp⟩
      | none =>
        cases ht : stripPtr t with
        | tSlice te => exact copyTableToSlice_ok h _ ih te a false st
        | tMap tk te => exact copyTableToMap_ok h _ ih tk te a st
        | tStruct fields => exact copyTableToStruct_ok h _ ih fields a st
        | tIface =>
          by_cases hm : luaMapLen (h a) ≠ objLen (h a)
          · rw [if_pos hm]
            exact copyTableToMap_ok h _ ih .tStr .tIface a st
          · rw [if_neg hm]
            exact copyTableToSlice_ok h _ ih .tIface a true st
        | tInt => exact ⟨le_refl _, fun _ _ => rfl, fun p hp => Or.inl hp⟩
        | tFloat => exact ⟨le_refl _, fun _ _ => rfl, fun p hp => Or.inl hp⟩
        | tStr => exact ⟨le_refl _, fun _ _ => rfl, fun p hp => Or.inl hp⟩
        | tBool => exact ⟨le_refl _, fun _ _ => rfl, fun p hp => Or.inl hp⟩
        | tPtrInt => exact ⟨le_refl _, fun _ _ => rfl, fun p hp => Or.inl hp⟩

/-- C8: during a LuaToGo conversion, a zero-length Lua table is never
inserted into the visited map: starting from a tracker whose entries all
name non-empty tables (in particular the empty tracker of a fresh
top-level call), after any conversion every entry still names a non-empty
table -- the slice conversion registers only for `ObjLen > 0`, the map and
struct conversions only when `luaIsEmpty` is false. -/
theorem empty_table_never_visited (h : LuaHeap) (fuel : ℕ) (t : GoType)
    (v : LuaVal) (st : St)
    (hst : ∀ p ∈ st.visited, luaIsEmpty (h p.1) = false) :
    ∀ p ∈ ((luaToGo h fuel t v st).1).visited, luaIsEmpty (h p.1) = false := by
  intro p hp
  rcases (luaToGo_convOK h fuel t v st).2.2 p hp with h1 | h1
  · exact hst p h1
  · exact h1

/-- Witness for C8: converting a one-element table registers it in the
tracker, and the registered table is indeed non-empty. -/
theorem empty_table_never_visited_witness :
    luaIsEmpty ((fun _ => (⟨[.num 1], []⟩ : LuaTable))
      (((0 : ℕ), GoVal.sliceRef 0)).1) = false :=
  empty_table_never_visited (fun _ => (⟨[.num 1], []⟩ : LuaTable)) 2
    (.tSlice .tInt) (.table 0) St.empty (by simp [St.empty])
    (0, GoVal.sliceRef 0) (by decide)

/-- C2: converting a Lua table `T` with `T[1] == T` to a Go slice type
(`[]interface{ }` elements in the model) produces the slice at address 0
whose element at position 0 is identity-equal to the produced slice
itself: `copyTableToSlice` registers the fresh slice in the visited map
before converting any child, so the recursive conversion of the
self-reference terminates through the tracker and preserves sharing. -/
theorem selfref_table_slice_identity (h : LuaHeap) (a F : ℕ)
    (rest : List LuaVal) (ha : (h a).arr = .table a :: rest) :
    (luaToGo h (F + 2) (.tSlice .tIface) (.table a) St.empty).2.1
      = .sliceRef 0 ∧
    ((luaToGo h (F + 2) (.tSlice .tIface) (.table a) St.empty).1.sliceAt 0).get? 0
      = some (.sliceRef 0) := by
  rw [show F + 2 = (F + 1) + 1 from rfl,
    luaToGo_table_slice h (F + 1) .tIface a St.empty rfl]
  simp only [copyTableToSlice, ha, List.length_cons, St.empty, List.length_nil,
    List.nil_append]
  rw [if_neg (by simp)]
  rw [if_neg (by simp : ¬(rest.length + 1 = 0))]
  have hstep : luaToGo h (F + 1) .tIface (.table a)
      { goSlices := [List.replicate (rest.length + 1) (zeroOf .tIface)],
        goMaps := [], goStructs := [], visited := [(a, .sliceRef 0)] }
      = ({ goSlices := [List.replicate (rest.length + 1) (zeroOf .tIface)],
           goMaps := [], goStructs := [], visited := [(a, .sliceRef 0)] },
         .sliceRef 0, none) := by
    simp [luaToGo, List.lookup, stripPtr, wrapPtr]
  simp only [sliceFill, hstep]
  refine ⟨trivial, ?_⟩
  obtain ⟨_, _, sj, _⟩ := sliceFill_ok h (luaToGo h (F + 1))
    (luaToGo_convOK h (F + 1)) .tIface 0 rest 1
    (St.setSliceElem
      { goSlices := [List.replicate (rest.length + 1) (zeroOf .tIface)],
        goMaps := [], goStructs := [], visited := [(a, .sliceRef 0)] }
      0 0 (.sliceRef 0)) none
    (by simp [St.setSliceElem])
  rw [sj 0 (by omega), sliceAt_setSliceElem_self]
  simp [St.sliceAt]

/-- Witness for C2: the one-element self-referencing table `t = {t}`. -/
theorem selfref_table_slice_identity_witness :
    (luaToGo (fun _ => (⟨[.table 0], []⟩ : LuaTable)) 2 (.tSlice .tIface)
        (.table 0) St.empty).2.1 = .sliceRef 0 ∧
    ((luaToGo (fun _ => (⟨[.table 0], []⟩ : LuaTable)) 2 (.tSlice .tIface)
        (.table 0) St.empty).1.sliceAt 0).get? 0 = some (.sliceRef 0) :=
  selfref_table_slice_identity _ 0 0 [] rfl

/-! ## Function adapter: struct return values (source: `luar.go`,
`goToLuaFunction` result handling, and the struct case of `goToLua` in
proxify mode)

A wrapped Go function's results are pushed with `GoToLuaProxy`; a struct
returned by value is first re-wrapped through a freshly allocated pointer
(`reflect.New`).  The proxify struct case then special-cases pointers whose
interface implements `error` (pushed as the error string) and `*LuaObject`
(the underlying Lua object is pushed); every other struct pointer becomes a
struct proxy, on which the full (pointer-receiver) method set is
reachable. -/

/-- A Go struct value as seen by the result-push path: whether its pointer
type implements the `error` interface (with the message `Error()` would
return), and whether it is luar's own `LuaObject` type. -/
structure GoStructVal where
  typeName : String
  implErrorIface : Bool
  errMsg : String
  isLuaObject : Bool
  deriving Repr, DecidableEq

/-- A value returned by a wrapped Go function (restricted to the shapes the
claim is about). -/
inductive RetVal where
  | structV (s : GoStructVal)
  | ptrStruct (s : GoStructVal)
  | intV (z : ℤ)
  deriving Repr, DecidableEq

/-- What ends up on the Lua stack for one result. -/
inductive LuaPush where
  | structProxy (viaPointer : Bool) (s : GoStructVal)
  | tableCopy (s : GoStructVal)
  | strV (msg : String)
  | numV (q : ℚ)
  | luaObjectPushed
  deriving Repr, DecidableEq

/-- The result loop of `goToLuaFunction` (`luar.go`): a struct returned by
value (kind `reflect.Struct`) is re-wrapped through a fresh pointer so that
method dispatch stays available; other results pass through. -/
def wrapReturnedStruct : RetVal → RetVal
  | .structV s => .ptrStruct s
  | v => v

/-- `goToLua` with `proxify = true` on a function result: the struct case
for a pointer checks `error` and `*LuaObject` before making a struct proxy;
a non-pointer struct is copied as a table; a predeclared `int` is pushed as
a number. -/
def goToLuaProxyRet : RetVal → LuaPush
  | .ptrStruct s =>
    if s.implErrorIface then .strV s.errMsg
    else if s.isLuaObject then .luaObjectPushed
    else .structProxy true s
  | .structV s => .tableCopy s
  | .intV z => .numV (z : ℚ)

/-- `GoToLuaProxy` applied to each (re-wrapped) result of a wrapped Go
function. -/
def pushFunctionResult (v : RetVal) : LuaPush :=
  goToLuaProxyRet (wrapReturnedStruct v)

/-- C7 counterexample: a struct returned by value whose pointer type
implements `error` is pushed as its error string, not as a struct proxy. -/
theorem struct_return_error_cex :
    pushFunctionResult (.structV ⟨"E", true, "boom", false⟩) = .strV "boom" := by
  rfl

/-- C7 (amended): a struct returned by value is always re-wrapped through a
fresh pointer and converted in proxify mode; unless the struct's pointer
type implements `error` or the value is a `LuaObject`, the pushed value is
a struct proxy carrying the pointer (so pointer-receiver methods stay
callable). -/
theorem struct_return_rewrapped (s : GoStructVal)
    (herr : s.implErrorIface = false) (hlo : s.isLuaObject = false) :
    wrapReturnedStruct (.structV s) = .ptrStruct s ∧
    pushFunctionResult (.structV s) = .structProxy true s := by
  constructor
  · rfl
  · simp [pushFunctionResult, wrapReturnedStruct, goToLuaProxyRet, herr, hlo]

/-- Witness for the amended C7 at a plain struct. -/
theorem struct_return_rewrapped_witness :
    wrapReturnedStruct (.structV ⟨"T", false, "", false⟩)
      = .ptrStruct ⟨"T", false, "", false⟩ ∧
    pushFunctionResult (.structV ⟨"T", false, "", false⟩)
      = .structProxy true ⟨"T", false, "", false⟩ :=
  struct_return_rewrapped _ rfl rfl

end Luar
